import Mathlib

/-
  Verification of the instruction-execution core of the pyhp bytecode VM
  (src/pyhp/opcodes.py) against its design specification.

  The opcode bodies are translated directly from src/pyhp/opcodes.py.
  The collaborators that the opcodes consume (the Frame contract, the
  Value Model, the Arithmetic Module, the dispatch loop) are not under
  src/; they are modelled from the specification's contracts (spec.md
  sections 3, 4.2 and 6) and are marked as such in their doc comments.
-/

set_option autoImplicit false

namespace PyHP

/-- Execution faults, after the spec's fault taxonomy (section 7).
`OutOfFuel` is an artifact of the embedding of the dispatch loop
(the fuel bound makes its recursion structural); it is not a fault of
the design. -/
inductive Fault where
  | UnboundVariable (index : Nat) (name : String)
  | StackUnderflow
  | UndefinedKey (key : String)
  | TypeMismatch
  | DivisionByZero
  | NotImplementedOpcode
  | OutOfFuel
  deriving DecidableEq

/-- An embedded variable reference recorded inside a string literal:
search pattern, base variable identifier, and the ordered index keys
(section 4.3 of the spec; carried by W_StringObject in the source). -/
structure StrVariable where
  search : String
  identifier : String
  indexes : List String
  deriving DecidableEq

/-- Payload of a string literal opcode: the template text plus the
recorded embedded references (W_StringObject's data, modelled from the
spec since pyhp/datatypes.py is not under src/). -/
structure WStr where
  value : String
  refs : List StrVariable
  deriving DecidableEq

/-- The instruction set of src/pyhp/opcodes.py as a closed union, one
case per opcode class, carrying the compile-time-fixed operands.
LOAD_FUNCTION's payload is the function value it wraps: parameter
metadata ((slot, name) pairs) and the compiled body — modelled from the
spec (section 3's CodeFunction; pyhp/functions.py is not under src/). -/
inductive Opcode where
  | LOAD_NULL
  | LOAD_BOOLEAN (value : Bool)
  | LOAD_INTVAL (value : Int)
  | LOAD_FLOATVAL (value : Rat)
  | LOAD_STRINGVAL (value : WStr)
  | LOAD_VAR (index : Nat) (name : String)
  | LOAD_FUNCTION (params : List (Nat × String)) (body : List Opcode)
  | LOAD_LIST (number : Nat)
  | LOAD_ARRAY (number : Nat)
  | LOAD_MEMBER
  | STORE_MEMBER
  | ASSIGN (index : Nat) (name : String)
  | DISCARD_TOP
  | DUP
  | JUMP (target : Nat)
  | JUMP_IF_FALSE (target : Nat)
  | RETURN
  | PRINT
  | CALL
  | EQ
  | GT
  | GE
  | LT
  | LE
  | AND
  | OR
  | ADD
  | SUB
  | MUL
  | DIV
  | NOT
  | INCR
  | DECR
  | MOD

/-- The polymorphic value model (W_Root hierarchy of pyhp/datatypes.py,
modelled from the spec's Value Model, section 3): Null, Boolean, Integer,
Float, String, Array (ordered string-keyed map), List (argument bundle)
and CodeFunction (a function value wrapping a compiled program plus
parameter metadata).  The float payload is carried as a rational
stand-in; no claim about this core computes with float values. -/
inductive W where
  | Null
  | Boolean (value : Bool)
  | IntObject (value : Int)
  | FloatObject (value : Rat)
  | StringObject (value : String) (refs : List StrVariable)
  | Array (entries : List (String × W))
  | List (elements : List W)
  | CodeFunction (params : List (Nat × String)) (body : List Opcode)

/-- Decimal digits of a natural number, most significant first
(the rendering Python's str produces for a non-negative int). -/
def natDigits (n : Nat) : List Char :=
  if n < 10 then [Nat.digitChar n]
  else natDigits (n / 10) ++ [Nat.digitChar (n % 10)]
decreasing_by exact Nat.div_lt_self (by omega) (by omega)

/-- Decimal rendering of a natural number, as Python's str(index). -/
def natStr (n : Nat) : String :=
  ⟨natDigits n⟩

/-- Update-or-append on the ordered entry list of an Array:
W_Array.put's create-or-overwrite contract (Value Model, spec section 6). -/
def putEntries : List (String × W) → String → W → List (String × W)
  | [], key, v => [(key, v)]
  | (k, w) :: rest, key, v =>
    if k == key then (k, v) :: rest
    else (k, w) :: putEntries rest key v

/-- Modelled from the spec: Value Model `get(key)` (section 6) — defined
for indexable values, fails with UndefinedKey when the key is absent and
with TypeMismatch on a non-indexable value. -/
def W.get : W → String → Except Fault W
  | .Array entries, key =>
    match entries.find? (fun e => e.1 == key) with
    | some e => .ok e.2
    | none => .error (.UndefinedKey key)
  | _, _ => .error .TypeMismatch

/-- Modelled from the spec: Value Model `put(key, value)` (section 6) —
the defined mutation contract of Array containers.  The source mutates
the container in place; the pure embedding returns the updated container. -/
def W.put : W → String → W → Except Fault W
  | .Array entries, key, v => .ok (.Array (putEntries entries key v))
  | _, _, _ => .error .TypeMismatch

/-- Modelled from the spec: Value Model `to_display_string` (section 6).
The exact display formats of composite and float values are a collaborator
concern; no claim depends on them. -/
def W.str : W → String
  | .Null => "null"
  | .Boolean b => if b then "true" else "false"
  | .IntObject i => if i < 0 then "-" ++ natStr (-i).toNat else natStr i.toNat
  | .FloatObject _ => "float"
  | .StringObject s _ => s
  | .Array _ => "Array"
  | .List _ => "List"
  | .CodeFunction _ _ => "Function"

/-- Modelled from the spec: Value Model `is_true` (section 6), with the
source language's PHP-like truthiness. -/
def W.is_true : W → Bool
  | .Null => false
  | .Boolean b => b
  | .IntObject i => if i = 0 then false else true
  | .FloatObject q => if q = 0 then false else true
  | .StringObject s _ => if s = "" then false else if s = "0" then false else true
  | .Array entries => !entries.isEmpty
  | .List l => !l.isEmpty
  | .CodeFunction _ _ => true

/-- One entry of the Frame's variable environment: the (numeric slot,
name) pair addressing a binding (spec section 3). -/
structure Binding where
  index : Nat
  name : String
  value : W

/-- Modelled from the spec: the execution Frame contract (sections 3 and
6) — an operand stack of values (top of stack at the head of the list)
and a variable environment.  pyhp/frame.py is not under src/; only this
contract is consumed by the opcodes. -/
structure Frame where
  valuestack : List W
  vars : List Binding

/-- Modelled from the spec: `push` appends a value at the top of the
operand stack. -/
def Frame.push (f : Frame) (v : W) : Frame :=
  { f with valuestack := v :: f.valuestack }

/-- Modelled from the spec: `pop` removes and returns the top of stack,
failing with StackUnderflow on an empty stack. -/
def Frame.pop (f : Frame) : Except Fault (W × Frame) :=
  match f.valuestack with
  | [] => .error .StackUnderflow
  | v :: rest => .ok (v, { f with valuestack := rest })

/-- Modelled from the spec: `top` peeks at the top of stack without
removing it, failing with StackUnderflow on an empty stack. -/
def Frame.top (f : Frame) : Except Fault W :=
  match f.valuestack with
  | [] => .error .StackUnderflow
  | v :: _ => .ok v

/-- Modelled from the spec: `pop_n(count)` removes the top `count` values
and returns them in their original push order (section 6). -/
def Frame.pop_n (f : Frame) (n : Nat) : Except Fault (List W × Frame) :=
  if n ≤ f.valuestack.length then
    .ok ((f.valuestack.take n).reverse, { f with valuestack := f.valuestack.drop n })
  else .error .StackUnderflow

/-- The current operand-stack depth (the source Frame's valuestack_pos). -/
def Frame.valuestack_pos (f : Frame) : Nat :=
  f.valuestack.length

/-- Modelled from the spec: `get_var` resolves a binding in the variable
environment.  The spec's Frame invariant (section 3) makes the numeric
slot and the name resolve to the same binding, so lookup is by name. -/
def Frame.get_var (f : Frame) (name : String) : Option W :=
  (f.vars.find? fun b => b.name == name).map (fun b => b.value)

/-- Update-or-append on the variable environment (create-or-overwrite). -/
def setVarList : List Binding → Nat → String → W → List Binding
  | [], index, name, v => [⟨index, name, v⟩]
  | b :: rest, index, name, v =>
    if b.name == name then ⟨b.index, b.name, v⟩ :: rest
    else b :: setVarList rest index name v

/-- Modelled from the spec: `set_var` binds a value to the (slot, name)
pair, create-or-overwrite (section 6). -/
def Frame.set_var (f : Frame) (index : Nat) (name : String) (v : W) : Frame :=
  { f with vars := setVarList f.vars index name v }

/-- Core of replace-all over character lists, scanning left to right with
non-overlapping matches.  The fuel argument (instantiated with the length
of the scanned list) makes the recursion structural. -/
def replCore (search repl : List Char) : Nat → List Char → List Char
  | _, [] => []
  | 0, s => s
  | fuel + 1, c :: rest =>
    if search.isPrefixOf (c :: rest) then
      repl ++ replCore search repl fuel ((c :: rest).drop search.length)
    else
      c :: replCore search repl fuel rest

/-- Modelled from the spec: W_StringObject.replace — replace every
occurrence of the search pattern by the replacement (section 4.3). -/
def strReplace (s search repl : String) : String :=
  if search.data = [] then s
  else ⟨replCore search.data repl.data s.data.length s.data⟩

/-- Modelled from the spec: the external collaborator contracts the
opcodes consume (section 6) — the Arithmetic Module's dynamic-coercion
binary and unary functions, which may fault (TypeMismatch;
DivisionByZero for division), its comparison predicates, and the Value
Model's function-invocation contract `call(callee, args, caller_frame)`:
a fully synchronous invocation returning the callee's result value
(sections 5 and 6); the caller's frame is passed as calling context and
its operand stack and bindings are not mutated through it.  The
coercion tables and the callee execution are a collaborator concern;
every theorem below holds for an arbitrary instance. -/
structure Arith where
  plus : W → W → Except Fault W
  sub : W → W → Except Fault W
  mult : W → W → Except Fault W
  division : W → W → Except Fault W
  increment : W → Except Fault W
  decrement : W → Except Fault W
  compare_eq : W → W → Bool
  compare_gt : W → W → Bool
  compare_ge : W → W → Bool
  compare_lt : W → W → Bool
  compare_le : W → W → Bool
  call : W → List W → Frame → Except Fault W

/-- A sample instantiation of the Arithmetic Module on integer operands,
used only to evaluate the concrete witness examples; the theorems
quantify over every instance. -/
def arithI : Arith where
  plus a b :=
    match a, b with
    | .IntObject x, .IntObject y => .ok (.IntObject (x + y))
    | _, _ => .error .TypeMismatch
  sub a b :=
    match a, b with
    | .IntObject x, .IntObject y => .ok (.IntObject (x - y))
    | _, _ => .error .TypeMismatch
  mult a b :=
    match a, b with
    | .IntObject x, .IntObject y => .ok (.IntObject (x * y))
    | _, _ => .error .TypeMismatch
  division a b :=
    match a, b with
    | .IntObject x, .IntObject y =>
      if y = 0 then .error .DivisionByZero else .ok (.IntObject (x / y))
    | _, _ => .error .TypeMismatch
  increment a :=
    match a with
    | .IntObject x => .ok (.IntObject (x + 1))
    | _ => .error .TypeMismatch
  decrement a :=
    match a with
    | .IntObject x => .ok (.IntObject (x - 1))
    | _ => .error .TypeMismatch
  compare_eq a b :=
    match a, b with
    | .IntObject x, .IntObject y => x == y
    | _, _ => false
  compare_gt a b :=
    match a, b with
    | .IntObject x, .IntObject y => y < x
    | _, _ => false
  compare_ge a b :=
    match a, b with
    | .IntObject x, .IntObject y => y ≤ x
    | _, _ => false
  compare_lt a b :=
    match a, b with
    | .IntObject x, .IntObject y => x < y
    | _, _ => false
  compare_le a b :=
    match a, b with
    | .IntObject x, .IntObject y => x ≤ y
    | _, _ => false
  call _ _ _ := .ok .Null

/-- src/pyhp/opcodes.py, LOAD_VAR.eval (lines 42-47): look up the
name/slot binding; the source raises when the variable is not set,
otherwise pushes the value. -/
def LOAD_VAR.eval (index : Nat) (name : String) (frame : Frame) : Except Fault Frame :=
  match frame.get_var name with
  | none => .error (.UnboundVariable index name)
  | some v => .ok (frame.push v)

/-- src/pyhp/opcodes.py, LOAD_FUNCTION.eval (lines 59-60): wrap the
compiled function as a first-class CodeFunction value and push it. -/
def LOAD_FUNCTION.eval (params : List (Nat × String)) (body : List Opcode)
    (frame : Frame) : Except Fault Frame :=
  .ok (frame.push (.CodeFunction params body))

/-- src/pyhp/opcodes.py, LOAD_LIST.eval (lines 69-71): pop_n the operand
count and push the values bundled as a List. -/
def LOAD_LIST.eval (number : Nat) (frame : Frame) : Except Fault Frame := do
  let (list_w, f) ← frame.pop_n number
  .ok (f.push (.List list_w))

/-- src/pyhp/opcodes.py, LOAD_NULL.eval (lines 75-76). -/
def LOAD_NULL.eval (frame : Frame) : Except Fault Frame :=
  .ok (frame.push .Null)

/-- src/pyhp/opcodes.py, LOAD_BOOLEAN.eval (lines 88-89); the wrapped
constant is built at construction time (line 86). -/
def LOAD_BOOLEAN.eval (value : Bool) (frame : Frame) : Except Fault Frame :=
  .ok (frame.push (.Boolean value))

/-- src/pyhp/opcodes.py, LOAD_INTVAL.eval (lines 101-102). -/
def LOAD_INTVAL.eval (value : Int) (frame : Frame) : Except Fault Frame :=
  .ok (frame.push (.IntObject value))

/-- src/pyhp/opcodes.py, LOAD_FLOATVAL.eval (lines 114-115). -/
def LOAD_FLOATVAL.eval (value : Rat) (frame : Frame) : Except Fault Frame :=
  .ok (frame.push (.FloatObject value))

/-- src/pyhp/opcodes.py, LOAD_STRINGVAL.eval line 133-134: an index key
whose first character is the '$' sigil is itself resolved from the frame
and its string form used as the key.  The source reads key[0] (an
IndexError on an empty key) and calls .str() on the get_var result (an
AttributeError when that variable is unbound); both crashes are modelled
as TypeMismatch faults. -/
def resolveIndexKey (frame : Frame) (key : String) : Except Fault String :=
  match key.data with
  | [] => .error .TypeMismatch
  | c :: _ =>
    if c = '$' then
      match frame.get_var key with
      | some v => .ok v.str
      | none => .error .TypeMismatch
    else .ok key

/-- src/pyhp/opcodes.py, LOAD_STRINGVAL.eval lines 132-135: the inner
loop applying successive get(key) navigations through the resolved value. -/
def navigateKeys (frame : Frame) : List String → W → Except Fault W
  | [], value => .ok value
  | key :: rest, value => do
    let k ← resolveIndexKey frame key
    let v2 ← value.get k
    navigateKeys frame rest v2

/-- src/pyhp/opcodes.py, LOAD_STRINGVAL.eval lines 129-137: the outer
loop over the recorded references, in recorded order (the iterated list
is obtained once, from the original literal).  An unbound base variable
makes the source call .get/.str on None; modelled as a TypeMismatch
fault. -/
def interpolateVars (frame : Frame) : List StrVariable → String → Except Fault String
  | [], s => .ok s
  | r :: rest, s =>
    match frame.get_var r.identifier with
    | none => .error .TypeMismatch
    | some base => do
      let final ← navigateKeys frame r.indexes base
      interpolateVars frame rest (strReplace s r.search final.str)

/-- src/pyhp/opcodes.py, LOAD_STRINGVAL.eval (lines 127-139): resolve the
embedded references against the frame and push the resolved string.  The
recorded-reference metadata of the pushed string object is left empty:
the source would re-derive it lazily from the replaced text, and no
behavior of this core consumes it. -/
def LOAD_STRINGVAL.eval (value : WStr) (frame : Frame) : Except Fault Frame := do
  let s ← interpolateVars frame value.refs value.value
  .ok (frame.push (.StringObject s []))

/-- src/pyhp/opcodes.py, LOAD_ARRAY.eval (lines 152-157): pop_n the
operand count, then put each value into a fresh Array keyed by the
decimal rendering of its position in the popped (original push order)
list. -/
def LOAD_ARRAY.eval (number : Nat) (frame : Frame) : Except Fault Frame := do
  let (list_w, f) ← frame.pop_n number
  .ok (f.push (.Array (list_w.enum.foldl (fun acc p => putEntries acc (natStr p.1) p.2) [])))

/-- src/pyhp/opcodes.py, LOAD_MEMBER.eval (lines 161-165): pop the
container, pop the key (coerced to string), push container.get(key). -/
def LOAD_MEMBER.eval (frame : Frame) : Except Fault Frame := do
  let (array, f1) ← frame.pop
  let (memberw, f2) ← f1.pop
  let value ← array.get memberw.str
  .ok (f2.push value)

/-- src/pyhp/opcodes.py, STORE_MEMBER.eval (lines 169-173): pop the
container, pop the key (coerced to string), pop the value, and mutate the
container via put(key, value).  Nothing is pushed back.  The source's
put is an in-place heap mutation; the pure embedding returns the post-put
container alongside the resulting frame to keep that effect observable. -/
def STORE_MEMBER.eval (frame : Frame) : Except Fault (Frame × W) := do
  let (array, f1) ← frame.pop
  let (indexw, f2) ← f1.pop
  let (value, f3) ← f2.pop
  let mutated ← array.put indexw.str value
  .ok (f3, mutated)

/-- src/pyhp/opcodes.py, ASSIGN.eval (lines 183-184): pop a value and
bind it to the (slot, name) pair. -/
def ASSIGN.eval (index : Nat) (name : String) (frame : Frame) : Except Fault Frame := do
  let (v, f) ← frame.pop
  .ok (f.set_var index name v)

/-- src/pyhp/opcodes.py, DISCARD_TOP.eval (lines 191-192). -/
def DISCARD_TOP.eval (frame : Frame) : Except Fault Frame := do
  let (_, f) ← frame.pop
  .ok f

/-- src/pyhp/opcodes.py, DUP.eval (lines 196-197): push the current top
without popping it. -/
def DUP.eval (frame : Frame) : Except Fault Frame := do
  let v ← frame.top
  .ok (frame.push v)

/-- src/pyhp/opcodes.py, JUMP.do_jump (lines 222-223): unconditional
transfer to the jump target. -/
def JUMP.do_jump (target : Nat) (frame : Frame) (pos : Nat) : Except Fault (Nat × Frame) :=
  .ok (target, frame)

/-- src/pyhp/opcodes.py, JUMP_IF_FALSE.do_jump (lines 211-215): pop one
value; transfer to the target when is_true() is false, else fall through
to pos + 1. -/
def JUMP_IF_FALSE.do_jump (target : Nat) (frame : Frame) (pos : Nat) :
    Except Fault (Nat × Frame) := do
  let (value, f) ← frame.pop
  if !value.is_true then .ok (target, f)
  else .ok (pos + 1, f)

/-- src/pyhp/opcodes.py, RETURN.eval (lines 230-234): pop and yield the
top value when the stack is non-empty, else yield Null. -/
def RETURN.eval (frame : Frame) : Except Fault (W × Frame) :=
  if frame.valuestack_pos > 0 then frame.pop
  else .ok (.Null, frame)

/-- src/pyhp/opcodes.py, PRINT.eval (lines 238-240): pop a value and
emit its display string to the output sink.  The sink is an injected
collaborator outside the frame state (spec section 6); the pure
embedding returns the emitted text alongside the resulting frame. -/
def PRINT.eval (frame : Frame) : Except Fault (Frame × String) := do
  let (item, f) ← frame.pop
  .ok (f, item.str)

/-- src/pyhp/opcodes.py, CALL.eval (lines 244-252): pop the callee, pop
the argument bundle, check that they are a Function value and a List
(the source's asserts; a failed assert is modelled as a TypeMismatch
fault), invoke the callee through the Value Model's call contract with
the current frame as calling context, and push the callee's result. -/
def CALL.eval (call : W → List W → Frame → Except Fault W) (frame : Frame) :
    Except Fault Frame := do
  let (method, f1) ← frame.pop
  let (params, f2) ← f1.pop
  match method, params with
  | .CodeFunction ps body, .List list_w => do
    let res ← call (.CodeFunction ps body) list_w f2
    .ok (f2.push res)
  | _, _ => .error .TypeMismatch

/-- src/pyhp/opcodes.py, BaseDecision.eval (lines 256-260): pop right,
pop left, push the Boolean of the subclass's decision function. -/
def BaseDecision.eval (decision : W → W → Bool) (frame : Frame) : Except Fault Frame := do
  let (right, f1) ← frame.pop
  let (left, f2) ← f1.pop
  let res := decision left right
  .ok (f2.push (.Boolean res))

/-- src/pyhp/opcodes.py, AND.decision (lines 292-293). -/
def AND.decision (left right : W) : Bool :=
  left.is_true && right.is_true

/-- src/pyhp/opcodes.py, OR.decision (lines 297-298). -/
def OR.decision (left right : W) : Bool :=
  left.is_true || right.is_true

/-- The shared body of the four binary arithmetic opcodes (ADD/SUB/
MUL/DIV, lines 301-326, whose source texts are identical modulo the
arithmetic function): pop right, pop left, push op(left, right). -/
def binaryArith (op : W → W → Except Fault W) (frame : Frame) : Except Fault Frame := do
  let (right, f1) ← frame.pop
  let (left, f2) ← f1.pop
  let res ← op left right
  .ok (f2.push res)

/-- src/pyhp/opcodes.py, ADD.eval (lines 302-305). -/
def ADD.eval (A : Arith) (frame : Frame) : Except Fault Frame :=
  binaryArith A.plus frame

/-- src/pyhp/opcodes.py, SUB.eval (lines 309-312). -/
def SUB.eval (A : Arith) (frame : Frame) : Except Fault Frame :=
  binaryArith A.sub frame

/-- src/pyhp/opcodes.py, MUL.eval (lines 316-319). -/
def MUL.eval (A : Arith) (frame : Frame) : Except Fault Frame :=
  binaryArith A.mult frame

/-- src/pyhp/opcodes.py, DIV.eval (lines 323-326). -/
def DIV.eval (A : Arith) (frame : Frame) : Except Fault Frame :=
  binaryArith A.division frame

/-- src/pyhp/opcodes.py, NOT.eval (lines 334-337): pop a value, push the
Boolean negation of its is_true(). -/
def NOT.eval (frame : Frame) : Except Fault Frame := do
  let (val, f) ← frame.pop
  let boolval := val.is_true
  .ok (f.push (.Boolean (!boolval)))

/-- The shared body of the two unary arithmetic opcodes (INCR/DECR,
lines 340-349): pop a value, push op of it. -/
def unaryArith (op : W → Except Fault W) (frame : Frame) : Except Fault Frame := do
  let (left, f1) ← frame.pop
  let res ← op left
  .ok (f1.push res)

/-- src/pyhp/opcodes.py, INCR.eval (lines 341-343). -/
def INCR.eval (A : Arith) (frame : Frame) : Except Fault Frame :=
  unaryArith A.increment frame

/-- src/pyhp/opcodes.py, DECR.eval (lines 346-349). -/
def DECR.eval (A : Arith) (frame : Frame) : Except Fault Frame :=
  unaryArith A.decrement frame

/-- Uniform dispatch of each opcode's eval against a frame, given an
Arithmetic Module instance.  BaseJump.eval is a no-op in the source
(lines 206-207); the jump computation lives in do_jump.  RETURN's frame
effect is kept, its yielded value being delivered by the dispatch loop.
MOD (line 352-353) inherits the base eval, which raises
NotImplementedError (line 25). -/
def Opcode.eval (A : Arith) : Opcode → Frame → Except Fault Frame
  | .LOAD_NULL, f => LOAD_NULL.eval f
  | .LOAD_BOOLEAN v, f => LOAD_BOOLEAN.eval v f
  | .LOAD_INTVAL v, f => LOAD_INTVAL.eval v f
  | .LOAD_FLOATVAL v, f => LOAD_FLOATVAL.eval v f
  | .LOAD_STRINGVAL v, f => LOAD_STRINGVAL.eval v f
  | .LOAD_VAR i n, f => LOAD_VAR.eval i n f
  | .LOAD_FUNCTION ps body, f => LOAD_FUNCTION.eval ps body f
  | .LOAD_LIST n, f => LOAD_LIST.eval n f
  | .LOAD_ARRAY n, f => LOAD_ARRAY.eval n f
  | .LOAD_MEMBER, f => LOAD_MEMBER.eval f
  | .STORE_MEMBER, f => (STORE_MEMBER.eval f).map Prod.fst
  | .ASSIGN i n, f => ASSIGN.eval i n f
  | .DISCARD_TOP, f => DISCARD_TOP.eval f
  | .DUP, f => DUP.eval f
  | .JUMP _, f => .ok f
  | .JUMP_IF_FALSE _, f => .ok f
  | .RETURN, f => (RETURN.eval f).map Prod.snd
  | .PRINT, f => (PRINT.eval f).map Prod.fst
  | .CALL, f => CALL.eval A.call f
  | .EQ, f => BaseDecision.eval A.compare_eq f
  | .GT, f => BaseDecision.eval A.compare_gt f
  | .GE, f => BaseDecision.eval A.compare_ge f
  | .LT, f => BaseDecision.eval A.compare_lt f
  | .LE, f => BaseDecision.eval A.compare_le f
  | .AND, f => BaseDecision.eval AND.decision f
  | .OR, f => BaseDecision.eval OR.decision f
  | .ADD, f => ADD.eval A f
  | .SUB, f => SUB.eval A f
  | .MUL, f => MUL.eval A f
  | .DIV, f => DIV.eval A f
  | .NOT, f => NOT.eval f
  | .INCR, f => INCR.eval A f
  | .DECR, f => DECR.eval A f
  | .MOD, _ => .error .NotImplementedOpcode

/-- The stack-effect table of spec section 4.1: the documented (pop k,
push m) pair for the opcodes whose contract is a fixed "pop k → push m".
None for the conditional entries: RETURN pops 0 or 1; JUMP_IF_FALSE's
documented pop happens in do_jump at the dispatch step, not in eval; the
reserved MOD has no contract yet.  STORE_MEMBER's table row reads
"pop 3, push back container", i.e. (3, 1). -/
def fixed_effect : Opcode → Option (Nat × Nat)
  | .LOAD_NULL => some (0, 1)
  | .LOAD_BOOLEAN _ => some (0, 1)
  | .LOAD_INTVAL _ => some (0, 1)
  | .LOAD_FLOATVAL _ => some (0, 1)
  | .LOAD_STRINGVAL _ => some (0, 1)
  | .LOAD_VAR _ _ => some (0, 1)
  | .LOAD_FUNCTION _ _ => some (0, 1)
  | .LOAD_LIST n => some (n, 1)
  | .LOAD_ARRAY n => some (n, 1)
  | .LOAD_MEMBER => some (2, 1)
  | .STORE_MEMBER => some (3, 1)
  | .ASSIGN _ _ => some (1, 0)
  | .DISCARD_TOP => some (1, 0)
  | .DUP => some (0, 1)
  | .JUMP _ => some (0, 0)
  | .JUMP_IF_FALSE _ => none
  | .RETURN => none
  | .PRINT => some (1, 0)
  | .CALL => some (2, 1)
  | .EQ | .GT | .GE | .LT | .LE | .AND | .OR => some (2, 1)
  | .ADD | .SUB | .MUL | .DIV => some (2, 1)
  | .NOT | .INCR | .DECR => some (1, 1)
  | .MOD => none

/-- The stack-only opcodes named by claim C9: the constant loads, DUP,
DISCARD_TOP, the unary and binary arithmetic opcodes, and the
comparison/boolean opcodes. -/
def stack_only : Opcode → Bool
  | .LOAD_NULL | .LOAD_BOOLEAN _ | .LOAD_INTVAL _ | .LOAD_FLOATVAL _
  | .DUP | .DISCARD_TOP | .NOT | .INCR | .DECR
  | .ADD | .SUB | .MUL | .DIV
  | .EQ | .GT | .GE | .LT | .LE | .AND | .OR => true
  | _ => false

/-- Modelled from the spec: the dispatch loop of section 4.2.  A step
fetches the instruction at pc; past the end of the program the loop
terminates with Null; a control-transfer opcode computes the next pc via
its do_jump rule; RETURN terminates immediately with its yielded value;
any other opcode executes its effect and advances pc by one.  The fuel
bound makes the recursion structural; exhausting it yields the OutOfFuel
artifact. -/
def runLoop (A : Arith) (prog : List Opcode) : Nat → Nat → Frame → Except Fault (W × Frame)
  | 0, _, _ => .error .OutOfFuel
  | fuel + 1, pc, f =>
    match prog[pc]? with
    | none => .ok (.Null, f)
    | some op =>
      match op with
      | .JUMP target => do
        let (pc2, f2) ← JUMP.do_jump target f pc
        runLoop A prog fuel pc2 f2
      | .JUMP_IF_FALSE target => do
        let (pc2, f2) ← JUMP_IF_FALSE.do_jump target f pc
        runLoop A prog fuel pc2 f2
      | .RETURN => RETURN.eval f
      | _ => do
        let f2 ← Opcode.eval A op f
        runLoop A prog fuel (pc + 1) f2

/-- Section 4.3 of the spec, as worded per reference: resolve the base
variable from the Frame, apply the successive get(key) navigations
(resolving '$'-sigil keys through the frame first), and take the final
value's display string. -/
def resolveReference (frame : Frame) (r : StrVariable) : Except Fault String := do
  let base ← match frame.get_var r.identifier with
    | none => .error Fault.TypeMismatch
    | some w => .ok w
  let final ← navigateKeys frame r.indexes base
  .ok final.str

/-- Section 4.3 of the spec, as worded: for every embedded reference, in
recorded order, replace every occurrence of its search pattern by its
resolved display string. -/
def interpolate_spec (frame : Frame) (ws : WStr) : Except Fault String :=
  ws.refs.foldlM (fun s r => (resolveReference frame r).map (fun repl => strReplace s r.search repl)) ws.value

/-! Helper lemmas about the Frame contract. -/

theorem pop_ok {f f1 : Frame} {v : W} (h : f.pop = .ok (v, f1)) :
    f.valuestack = v :: f1.valuestack ∧ f1.vars = f.vars := by
  unfold Frame.pop at h
  cases hs : f.valuestack with
  | nil => rw [hs] at h; cases h
  | cons a t =>
    rw [hs] at h
    simp only [Except.ok.injEq, Prod.mk.injEq] at h
    obtain ⟨hv, hf⟩ := h
    subst hv hf
    exact ⟨rfl, rfl⟩

theorem pop_n_ok {f f1 : Frame} {n : Nat} {l : List W} (h : f.pop_n n = .ok (l, f1)) :
    f1.valuestack.length + n = f.valuestack.length ∧ f1.vars = f.vars ∧ l.length = n := by
  unfold Frame.pop_n at h
  split at h
  · next hle =>
    simp only [Except.ok.injEq, Prod.mk.injEq] at h
    obtain ⟨hl, hf⟩ := h
    subst hl hf
    refine ⟨?_, rfl, ?_⟩
    · simp only [List.length_drop]
      omega
    · simp only [List.length_reverse, List.length_take]
      omega
  · cases h

theorem top_ok {f : Frame} {v : W} (h : f.top = .ok v) :
    ∃ rest, f.valuestack = v :: rest := by
  unfold Frame.top at h
  cases hs : f.valuestack with
  | nil => rw [hs] at h; cases h
  | cons a t =>
    rw [hs] at h
    simp only [Except.ok.injEq] at h
    subst h
    exact ⟨t, rfl⟩

theorem baseDecision_ok {d : W → W → Bool} {f f2 : Frame}
    (h : BaseDecision.eval d f = .ok f2) :
    f2.valuestack.length + 2 = f.valuestack.length + 1 ∧ f2.vars = f.vars := by
  unfold BaseDecision.eval at h
  simp only [bind, Except.bind] at h
  split at h
  · cases h
  · rename_i v1 hv1
    obtain ⟨right, fa⟩ := v1
    split at h
    · cases h
    · rename_i v2 hv2
      obtain ⟨left, fb⟩ := v2
      cases h
      obtain ⟨e1s, e1v⟩ := pop_ok hv1
      obtain ⟨e2s, e2v⟩ := pop_ok hv2
      have l1 : f.valuestack.length = fa.valuestack.length + 1 := by rw [e1s]; rfl
      have l2 : fa.valuestack.length = fb.valuestack.length + 1 := by rw [e2s]; rfl
      constructor
      · simp only [Frame.push, List.length_cons]
        omega
      · simp only [Frame.push]
        rw [e2v, e1v]

theorem binaryArith_ok {op : W → W → Except Fault W} {f f2 : Frame}
    (h : binaryArith op f = .ok f2) :
    f2.valuestack.length + 2 = f.valuestack.length + 1 ∧ f2.vars = f.vars := by
  unfold binaryArith at h
  simp only [bind, Except.bind] at h
  split at h
  · cases h
  · rename_i v1 hv1
    obtain ⟨right, fa⟩ := v1
    split at h
    · cases h
    · rename_i v2 hv2
      obtain ⟨left, fb⟩ := v2
      split at h
      · cases h
      · rename_i res hres
        cases h
        obtain ⟨e1s, e1v⟩ := pop_ok hv1
        obtain ⟨e2s, e2v⟩ := pop_ok hv2
        have l1 : f.valuestack.length = fa.valuestack.length + 1 := by rw [e1s]; rfl
        have l2 : fa.valuestack.length = fb.valuestack.length + 1 := by rw [e2s]; rfl
        constructor
        · simp only [Frame.push, List.length_cons]
          omega
        · simp only [Frame.push]
          rw [e2v, e1v]

theorem unaryArith_ok {op : W → Except Fault W} {f f2 : Frame}
    (h : unaryArith op f = .ok f2) :
    f2.valuestack.length + 1 = f.valuestack.length + 1 ∧ f2.vars = f.vars := by
  unfold unaryArith at h
  simp only [bind, Except.bind] at h
  split at h
  · cases h
  · rename_i v1 hv1
    obtain ⟨left, fa⟩ := v1
    split at h
    · cases h
    · rename_i res hres
      cases h
      obtain ⟨e1s, e1v⟩ := pop_ok hv1
      have l1 : f.valuestack.length = fa.valuestack.length + 1 := by rw [e1s]; rfl
      constructor
      · simp only [Frame.push, List.length_cons]
        omega
      · simp only [Frame.push]
        exact e1v

/-! Claim theorems. -/

/-- C1 (counterexample): executing STORE_MEMBER on a frame holding
exactly a container, a key and a value leaves the operand stack empty —
the container is not pushed back, so the net stack-depth change is -3,
not the claimed -2. -/
theorem store_member_no_repush_counterexample :
    Opcode.eval arithI .STORE_MEMBER
        ⟨[W.Array [], W.StringObject "k" [], W.IntObject 7], []⟩ = .ok ⟨[], []⟩
    ∧ (Frame.mk [] []).valuestack.length ≠
        (Frame.mk [W.Array [], W.StringObject "k" [], W.IntObject 7] []).valuestack.length - 2 :=
  ⟨rfl, by decide⟩

/-- C1 (amended): STORE_MEMBER pops the container, then the key (coerced
to string), then the value; mutates the container via put(key, value);
and pushes nothing back, for a net stack-depth change of -3. -/
theorem store_member_pops_three_pushes_nothing
    (container keyw v : W) (rest : List W) (vars : List Binding) (mutated : W)
    (hput : container.put keyw.str v = .ok mutated) :
    STORE_MEMBER.eval ⟨container :: keyw :: v :: rest, vars⟩ = .ok (⟨rest, vars⟩, mutated)
    ∧ ∀ A : Arith,
        Opcode.eval A .STORE_MEMBER ⟨container :: keyw :: v :: rest, vars⟩ = .ok ⟨rest, vars⟩ := by
  constructor
  · simp [STORE_MEMBER.eval, Frame.pop, bind, Except.bind, hput]
  · intro A
    simp [Opcode.eval, STORE_MEMBER.eval, Frame.pop, bind, Except.bind, hput, Except.map]

/-- Witness for C1's amended theorem at a concrete container, key and
value. -/
theorem store_member_pops_three_pushes_nothing_witness :
    STORE_MEMBER.eval ⟨[W.Array [], W.StringObject "k" [], W.IntObject 7], []⟩ =
      .ok (⟨[], []⟩, W.Array [("k", W.IntObject 7)]) :=
  (store_member_pops_three_pushes_nothing (W.Array []) (W.StringObject "k" [])
    (W.IntObject 7) [] [] (W.Array [("k", W.IntObject 7)]) rfl).1

/-- C3: AND (resp. OR) always pops exactly two operands — right first,
then left, where left was pushed first — and pushes the Boolean
conjunction (resp. disjunction) of their is_true values; both operands
are consumed unconditionally, with no short-circuit skipping of either
pop (the equations hold for every pair of operand values). -/
theorem and_or_consume_both_operands (A : Arith) (l r : W) (rest : List W)
    (vars : List Binding) :
    Opcode.eval A .AND ⟨r :: l :: rest, vars⟩ =
      .ok ⟨W.Boolean (l.is_true && r.is_true) :: rest, vars⟩
    ∧ Opcode.eval A .OR ⟨r :: l :: rest, vars⟩ =
      .ok ⟨W.Boolean (l.is_true || r.is_true) :: rest, vars⟩ :=
  ⟨rfl, rfl⟩

/-- C5: RETURN on an empty operand stack yields Null and pops nothing;
on a non-empty stack it pops exactly one value, yields it, and leaves
the rest of the stack unchanged; and when the dispatch loop meets
RETURN, execution of the current program terminates immediately with
RETURN's result, whatever instructions remain. -/
theorem return_semantics :
    (∀ vars : List Binding, RETURN.eval ⟨[], vars⟩ = .ok (W.Null, ⟨[], vars⟩))
    ∧ (∀ (v : W) (rest : List W) (vars : List Binding),
        RETURN.eval ⟨v :: rest, vars⟩ = .ok (v, ⟨rest, vars⟩))
    ∧ (∀ (A : Arith) (prog : List Opcode) (fuel pc : Nat) (f : Frame),
        prog[pc]? = some .RETURN → runLoop A prog (fuel + 1) pc f = RETURN.eval f) := by
  refine ⟨fun vars => rfl, fun v rest vars => ?_, fun A prog fuel pc f h => ?_⟩
  · simp [RETURN.eval, Frame.valuestack_pos, Frame.pop]
  · simp [runLoop, h]

/-- Witness for C5 at a concrete one-instruction program and a concrete
stack. -/
theorem return_semantics_witness :
    runLoop arithI [Opcode.RETURN] 1 0 ⟨[W.IntObject 5], []⟩ = .ok (W.IntObject 5, ⟨[], []⟩) :=
  (return_semantics.2.2 arithI [Opcode.RETURN] 0 0 ⟨[W.IntObject 5], []⟩ rfl).trans
    (return_semantics.2.1 (W.IntObject 5) [] [])

/-- C6: on a frame with a non-empty stack, JUMP_IF_FALSE's do_jump pops
exactly one value and returns the jump target when that value's
is_true() is false and pos + 1 otherwise; the frame is otherwise
untouched — the variable environment and the rest of the stack are
unchanged. -/
theorem jump_if_false_pops_one_and_selects_target
    (target pos : Nat) (v : W) (rest : List W) (vars : List Binding) :
    JUMP_IF_FALSE.do_jump target ⟨v :: rest, vars⟩ pos =
      .ok ((if v.is_true then pos + 1 else target), ⟨rest, vars⟩) := by
  cases h : v.is_true <;> simp [JUMP_IF_FALSE.do_jump, Frame.pop, h, bind, Except.bind]

/-- C8: LOAD_VAR faults with UnboundVariable — pushing nothing — exactly
when the binding is absent; when the binding is present it pushes the
bound value (a net stack-depth change of +1) and raises nothing. -/
theorem load_var_faults_iff_unset (index : Nat) (name : String) (f : Frame) :
    (f.get_var name = none →
      LOAD_VAR.eval index name f = .error (.UnboundVariable index name))
    ∧ (∀ v : W, f.get_var name = some v →
        LOAD_VAR.eval index name f = .ok (f.push v)) := by
  constructor
  · intro h
    simp [LOAD_VAR.eval, h]
  · intro v h
    simp [LOAD_VAR.eval, h]

/-- Witness for C8: the unbound and the bound case at concrete frames. -/
theorem load_var_faults_iff_unset_witness :
    LOAD_VAR.eval 0 "x" ⟨[], []⟩ = .error (.UnboundVariable 0 "x")
    ∧ LOAD_VAR.eval 0 "x" ⟨[], [⟨0, "x", W.IntObject 1⟩]⟩ =
        .ok ((⟨[], [⟨0, "x", W.IntObject 1⟩]⟩ : Frame).push (W.IntObject 1)) :=
  ⟨(load_var_faults_iff_unset 0 "x" ⟨[], []⟩).1 rfl,
   (load_var_faults_iff_unset 0 "x" ⟨[], [⟨0, "x", W.IntObject 1⟩]⟩).2 (W.IntObject 1) rfl⟩

/-- C10: LOAD_LIST(0) and LOAD_ARRAY(0), on any frame — including one
with an empty operand stack — pop nothing, never fault, and push an
empty List (resp. an Array with no keys), leaving every pre-existing
stack value and all variable bindings unchanged (net stack-depth change
+1). -/
theorem load_list_array_zero (f : Frame) :
    LOAD_LIST.eval 0 f = .ok (f.push (W.List []))
    ∧ LOAD_ARRAY.eval 0 f = .ok (f.push (W.Array [])) := by
  constructor
  · simp [LOAD_LIST.eval, Frame.pop_n, bind, Except.bind]
  · simp [LOAD_ARRAY.eval, Frame.pop_n, bind, Except.bind]


/-- C2 (counterexample): the opcode table documents STORE_MEMBER as
"pop 3, push back container" — a fixed effect (k, m) = (3, 1) — but
executing it on a depth-3 frame leaves depth 0, not 3 - 3 + 1 = 1. -/
theorem stack_effect_table_counterexample :
    fixed_effect .STORE_MEMBER = some (3, 1)
    ∧ Opcode.eval arithI .STORE_MEMBER
        ⟨[W.Array [], W.StringObject "k" [], W.IntObject 7], []⟩ = .ok ⟨[], []⟩
    ∧ (Frame.mk [] []).valuestack.length + 3 ≠
        (Frame.mk [W.Array [], W.StringObject "k" [], W.IntObject 7] []).valuestack.length + 1 :=
  ⟨rfl, rfl, by decide⟩

/-- C2 (amended): for every opcode of the embedded core other than
STORE_MEMBER whose contract states a fixed stack effect "pop k → push m"
(the fixed_effect table of spec section 4.1), a successful eval on a
frame of depth d leaves depth d - k + m — in particular each binary
comparison/arithmetic opcode nets -1 and each LOAD_CONSTANT-style opcode
nets +1.  STORE_MEMBER itself nets -3 rather than its documented -2. -/
theorem fixed_stack_effect_except_store_member
    (A : Arith) (op : Opcode) (k m : Nat) (f f2 : Frame)
    (hop : op ≠ .STORE_MEMBER)
    (heff : fixed_effect op = some (k, m))
    (hev : Opcode.eval A op f = .ok f2) :
    f2.valuestack.length + k = f.valuestack.length + m := by
  cases op with
  | LOAD_NULL =>
    simp only [fixed_effect, Option.some.injEq, Prod.mk.injEq] at heff
    obtain ⟨hk, hm⟩ := heff
    subst hk hm
    simp only [Opcode.eval, LOAD_NULL.eval] at hev
    cases hev
    simp [Frame.push]
  | LOAD_BOOLEAN v =>
    simp only [fixed_effect, Option.some.injEq, Prod.mk.injEq] at heff
    obtain ⟨hk, hm⟩ := heff
    subst hk hm
    simp only [Opcode.eval, LOAD_BOOLEAN.eval] at hev
    cases hev
    simp [Frame.push]
  | LOAD_INTVAL v =>
    simp only [fixed_effect, Option.some.injEq, Prod.mk.injEq] at heff
    obtain ⟨hk, hm⟩ := heff
    subst hk hm
    simp only [Opcode.eval, LOAD_INTVAL.eval] at hev
    cases hev
    simp [Frame.push]
  | LOAD_FLOATVAL v =>
    simp only [fixed_effect, Option.some.injEq, Prod.mk.injEq] at heff
    obtain ⟨hk, hm⟩ := heff
    subst hk hm
    simp only [Opcode.eval, LOAD_FLOATVAL.eval] at hev
    cases hev
    simp [Frame.push]
  | LOAD_STRINGVAL ws =>
    simp only [fixed_effect, Option.some.injEq, Prod.mk.injEq] at heff
    obtain ⟨hk, hm⟩ := heff
    subst hk hm
    simp only [Opcode.eval, LOAD_STRINGVAL.eval, bind, Except.bind] at hev
    split at hev
    · cases hev
    · cases hev
      simp [Frame.push]
  | LOAD_VAR i n =>
    simp only [fixed_effect, Option.some.injEq, Prod.mk.injEq] at heff
    obtain ⟨hk, hm⟩ := heff
    subst hk hm
    simp only [Opcode.eval, LOAD_VAR.eval] at hev
    split at hev
    · cases hev
    · cases hev
      simp [Frame.push]
  | LOAD_FUNCTION ps body =>
    simp only [fixed_effect, Option.some.injEq, Prod.mk.injEq] at heff
    obtain ⟨hk, hm⟩ := heff
    subst hk hm
    simp only [Opcode.eval, LOAD_FUNCTION.eval] at hev
    cases hev
    simp [Frame.push]
  | LOAD_LIST n =>
    simp only [fixed_effect, Option.some.injEq, Prod.mk.injEq] at heff
    obtain ⟨hk, hm⟩ := heff
    subst hk hm
    simp only [Opcode.eval, LOAD_LIST.eval, bind, Except.bind] at hev
    split at hev
    · cases hev
    · rename_i p hp
      obtain ⟨lst, fa⟩ := p
      cases hev
      obtain ⟨hlen, hvars, _⟩ := pop_n_ok hp
      simp only [Frame.push, List.length_cons]
      omega
  | LOAD_ARRAY n =>
    simp only [fixed_effect, Option.some.injEq, Prod.mk.injEq] at heff
    obtain ⟨hk, hm⟩ := heff
    subst hk hm
    simp only [Opcode.eval, LOAD_ARRAY.eval, bind, Except.bind] at hev
    split at hev
    · cases hev
    · rename_i p hp
      obtain ⟨lst, fa⟩ := p
      cases hev
      obtain ⟨hlen, hvars, _⟩ := pop_n_ok hp
      simp only [Frame.push, List.length_cons]
      omega
  | LOAD_MEMBER =>
    simp only [fixed_effect, Option.some.injEq, Prod.mk.injEq] at heff
    obtain ⟨hk, hm⟩ := heff
    subst hk hm
    simp only [Opcode.eval, LOAD_MEMBER.eval, bind, Except.bind] at hev
    split at hev
    · cases hev
    · rename_i p hp
      obtain ⟨arr, fa⟩ := p
      split at hev
      · cases hev
      · rename_i q hq
        obtain ⟨mem, fb⟩ := q
        split at hev
        · cases hev
        · cases hev
          obtain ⟨e1s, _⟩ := pop_ok hp
          obtain ⟨e2s, _⟩ := pop_ok hq
          have l1 : f.valuestack.length = fa.valuestack.length + 1 := by rw [e1s]; rfl
          have l2 : fa.valuestack.length = fb.valuestack.length + 1 := by rw [e2s]; rfl
          simp only [Frame.push, List.length_cons]
          omega
  | STORE_MEMBER => exact absurd rfl hop
  | ASSIGN i n =>
    simp only [fixed_effect, Option.some.injEq, Prod.mk.injEq] at heff
    obtain ⟨hk, hm⟩ := heff
    subst hk hm
    simp only [Opcode.eval, ASSIGN.eval, bind, Except.bind] at hev
    split at hev
    · cases hev
    · rename_i p hp
      obtain ⟨v, fa⟩ := p
      cases hev
      obtain ⟨e1s, _⟩ := pop_ok hp
      have l1 : f.valuestack.length = fa.valuestack.length + 1 := by rw [e1s]; rfl
      show (fa.set_var i n v).valuestack.length + 1 = f.valuestack.length + 0
      simp only [Frame.set_var]
      omega
  | DISCARD_TOP =>
    simp only [fixed_effect, Option.some.injEq, Prod.mk.injEq] at heff
    obtain ⟨hk, hm⟩ := heff
    subst hk hm
    simp only [Opcode.eval, DISCARD_TOP.eval, bind, Except.bind] at hev
    split at hev
    · cases hev
    · rename_i p hp
      obtain ⟨v, fa⟩ := p
      cases hev
      obtain ⟨e1s, _⟩ := pop_ok hp
      have l1 : f.valuestack.length = fa.valuestack.length + 1 := by rw [e1s]; rfl
      show fa.valuestack.length + 1 = f.valuestack.length + 0
      omega
  | DUP =>
    simp only [fixed_effect, Option.some.injEq, Prod.mk.injEq] at heff
    obtain ⟨hk, hm⟩ := heff
    subst hk hm
    simp only [Opcode.eval, DUP.eval, bind, Except.bind] at hev
    split at hev
    · cases hev
    · cases hev
      simp [Frame.push]
  | JUMP t =>
    simp only [fixed_effect, Option.some.injEq, Prod.mk.injEq] at heff
    obtain ⟨hk, hm⟩ := heff
    subst hk hm
    simp only [Opcode.eval] at hev
    cases hev
    omega
  | JUMP_IF_FALSE t => simp [fixed_effect] at heff
  | RETURN => simp [fixed_effect] at heff
  | PRINT =>
    simp only [fixed_effect, Option.some.injEq, Prod.mk.injEq] at heff
    obtain ⟨hk, hm⟩ := heff
    subst hk hm
    simp only [Opcode.eval, Except.map] at hev
    split at hev
    · cases hev
    · rename_i a ha
      obtain ⟨fa, s⟩ := a
      cases hev
      unfold PRINT.eval at ha
      simp only [bind, Except.bind] at ha
      split at ha
      · cases ha
      · rename_i p hp
        obtain ⟨item, fb⟩ := p
        cases ha
        obtain ⟨e1s, _⟩ := pop_ok hp
        have l1 : f.valuestack.length = fb.valuestack.length + 1 := by rw [e1s]; rfl
        show fb.valuestack.length + 1 = f.valuestack.length + 0
        omega
  | CALL =>
    simp only [fixed_effect, Option.some.injEq, Prod.mk.injEq] at heff
    obtain ⟨hk, hm⟩ := heff
    subst hk hm
    simp only [Opcode.eval, CALL.eval, bind, Except.bind] at hev
    split at hev
    · cases hev
    · rename_i p1 h1
      obtain ⟨method, fa⟩ := p1
      split at hev
      · cases hev
      · rename_i p2 h2
        obtain ⟨params, fb⟩ := p2
        split at hev
        · split at hev
          · cases hev
          · rename_i res hres
            cases hev
            obtain ⟨e1s, _⟩ := pop_ok h1
            obtain ⟨e2s, _⟩ := pop_ok h2
            have l1 : f.valuestack.length = fa.valuestack.length + 1 := by rw [e1s]; rfl
            have l2 : fa.valuestack.length = fb.valuestack.length + 1 := by rw [e2s]; rfl
            show fb.valuestack.length + 1 + 2 = f.valuestack.length + 1
            omega
        · cases hev
  | EQ =>
    simp only [fixed_effect, Option.some.injEq, Prod.mk.injEq] at heff
    obtain ⟨hk, hm⟩ := heff
    subst hk hm
    simp only [Opcode.eval] at hev
    have := baseDecision_ok hev
    omega
  | GT =>
    simp only [fixed_effect, Option.some.injEq, Prod.mk.injEq] at heff
    obtain ⟨hk, hm⟩ := heff
    subst hk hm
    simp only [Opcode.eval] at hev
    have := baseDecision_ok hev
    omega
  | GE =>
    simp only [fixed_effect, Option.some.injEq, Prod.mk.injEq] at heff
    obtain ⟨hk, hm⟩ := heff
    subst hk hm
    simp only [Opcode.eval] at hev
    have := baseDecision_ok hev
    omega
  | LT =>
    simp only [fixed_effect, Option.some.injEq, Prod.mk.injEq] at heff
    obtain ⟨hk, hm⟩ := heff
    subst hk hm
    simp only [Opcode.eval] at hev
    have := baseDecision_ok hev
    omega
  | LE =>
    simp only [fixed_effect, Option.some.injEq, Prod.mk.injEq] at heff
    obtain ⟨hk, hm⟩ := heff
    subst hk hm
    simp only [Opcode.eval] at hev
    have := baseDecision_ok hev
    omega
  | AND =>
    simp only [fixed_effect, Option.some.injEq, Prod.mk.injEq] at heff
    obtain ⟨hk, hm⟩ := heff
    subst hk hm
    simp only [Opcode.eval] at hev
    have := baseDecision_ok hev
    omega
  | OR =>
    simp only [fixed_effect, Option.some.injEq, Prod.mk.injEq] at heff
    obtain ⟨hk, hm⟩ := heff
    subst hk hm
    simp only [Opcode.eval] at hev
    have := baseDecision_ok hev
    omega
  | ADD =>
    simp only [fixed_effect, Option.some.injEq, Prod.mk.injEq] at heff
    obtain ⟨hk, hm⟩ := heff
    subst hk hm
    simp only [Opcode.eval, ADD.eval] at hev
    have := binaryArith_ok hev
    omega
  | SUB =>
    simp only [fixed_effect, Option.some.injEq, Prod.mk.injEq] at heff
    obtain ⟨hk, hm⟩ := heff
    subst hk hm
    simp only [Opcode.eval, SUB.eval] at hev
    have := binaryArith_ok hev
    omega
  | MUL =>
    simp only [fixed_effect, Option.some.injEq, Prod.mk.injEq] at heff
    obtain ⟨hk, hm⟩ := heff
    subst hk hm
    simp only [Opcode.eval, MUL.eval] at hev
    have := binaryArith_ok hev
    omega
  | DIV =>
    simp only [fixed_effect, Option.some.injEq, Prod.mk.injEq] at heff
    obtain ⟨hk, hm⟩ := heff
    subst hk hm
    simp only [Opcode.eval, DIV.eval] at hev
    have := binaryArith_ok hev
    omega
  | NOT =>
    simp only [fixed_effect, Option.some.injEq, Prod.mk.injEq] at heff
    obtain ⟨hk, hm⟩ := heff
    subst hk hm
    simp only [Opcode.eval, NOT.eval, bind, Except.bind] at hev
    split at hev
    · cases hev
    · rename_i p hp
      obtain ⟨v, fa⟩ := p
      cases hev
      obtain ⟨e1s, _⟩ := pop_ok hp
      have l1 : f.valuestack.length = fa.valuestack.length + 1 := by rw [e1s]; rfl
      simp only [Frame.push, List.length_cons]
      omega
  | INCR =>
    simp only [fixed_effect, Option.some.injEq, Prod.mk.injEq] at heff
    obtain ⟨hk, hm⟩ := heff
    subst hk hm
    simp only [Opcode.eval, INCR.eval] at hev
    have := unaryArith_ok hev
    omega
  | DECR =>
    simp only [fixed_effect, Option.some.injEq, Prod.mk.injEq] at heff
    obtain ⟨hk, hm⟩ := heff
    subst hk hm
    simp only [Opcode.eval, DECR.eval] at hev
    have := unaryArith_ok hev
    omega
  | MOD => simp [fixed_effect] at heff

/-- Witness for C2's amended theorem: ADD on a depth-2 frame nets -1. -/
theorem fixed_stack_effect_witness :
    (Frame.mk [W.IntObject 5] []).valuestack.length + 2 =
      (Frame.mk [W.IntObject 2, W.IntObject 3] []).valuestack.length + 1 :=
  fixed_stack_effect_except_store_member arithI .ADD 2 1
    ⟨[W.IntObject 2, W.IntObject 3], []⟩ ⟨[W.IntObject 5], []⟩
    (fun h => Opcode.noConfusion h) rfl rfl


/-- C9: every stack-only opcode — the constant loads LOAD_NULL,
LOAD_BOOLEAN, LOAD_INTVAL, LOAD_FLOATVAL, DUP, DISCARD_TOP, NOT, INCR,
DECR, ADD, SUB, MUL, DIV and the comparison/boolean opcodes EQ, GT, GE,
LT, LE, AND, OR — leaves the frame's variable environment completely
unchanged; ASSIGN writes a variable binding (popping one value and
binding it); and among all the opcodes of this core, ASSIGN is the only
one whose successful execution changes the variable environment: every
other opcode, LOAD_FUNCTION, PRINT and CALL included, preserves it. -/
theorem stack_only_leave_vars_unchanged :
    (∀ (A : Arith) (op : Opcode) (f f2 : Frame),
        stack_only op = true → Opcode.eval A op f = .ok f2 → f2.vars = f.vars)
    ∧ (∀ (A : Arith) (index : Nat) (name : String) (v : W) (rest : List W)
        (vars : List Binding),
        Opcode.eval A (.ASSIGN index name) ⟨v :: rest, vars⟩ =
          .ok ⟨rest, setVarList vars index name v⟩)
    ∧ (∀ (A : Arith) (op : Opcode) (f f2 : Frame),
        (∀ (index : Nat) (name : String), op ≠ .ASSIGN index name) →
        Opcode.eval A op f = .ok f2 → f2.vars = f.vars) := by
  have hvars : ∀ (A : Arith) (op : Opcode) (f f2 : Frame),
      (∀ (index : Nat) (name : String), op ≠ .ASSIGN index name) →
      Opcode.eval A op f = .ok f2 → f2.vars = f.vars := by
    intro A op f f2 hne hev
    cases op with
    | LOAD_NULL =>
      simp only [Opcode.eval, LOAD_NULL.eval] at hev
      cases hev
      rfl
    | LOAD_BOOLEAN v =>
      simp only [Opcode.eval, LOAD_BOOLEAN.eval] at hev
      cases hev
      rfl
    | LOAD_INTVAL v =>
      simp only [Opcode.eval, LOAD_INTVAL.eval] at hev
      cases hev
      rfl
    | LOAD_FLOATVAL v =>
      simp only [Opcode.eval, LOAD_FLOATVAL.eval] at hev
      cases hev
      rfl
    | LOAD_STRINGVAL ws =>
      simp only [Opcode.eval, LOAD_STRINGVAL.eval, bind, Except.bind] at hev
      split at hev
      · cases hev
      · cases hev
        rfl
    | LOAD_VAR i n =>
      simp only [Opcode.eval, LOAD_VAR.eval] at hev
      split at hev
      · cases hev
      · cases hev
        rfl
    | LOAD_FUNCTION ps body =>
      simp only [Opcode.eval, LOAD_FUNCTION.eval] at hev
      cases hev
      rfl
    | LOAD_LIST n =>
      simp only [Opcode.eval, LOAD_LIST.eval, bind, Except.bind] at hev
      split at hev
      · cases hev
      · rename_i p hp
        obtain ⟨lst, fa⟩ := p
        cases hev
        exact (pop_n_ok hp).2.1
    | LOAD_ARRAY n =>
      simp only [Opcode.eval, LOAD_ARRAY.eval, bind, Except.bind] at hev
      split at hev
      · cases hev
      · rename_i p hp
        obtain ⟨lst, fa⟩ := p
        cases hev
        exact (pop_n_ok hp).2.1
    | LOAD_MEMBER =>
      simp only [Opcode.eval, LOAD_MEMBER.eval, bind, Except.bind] at hev
      split at hev
      · cases hev
      · rename_i p1 h1
        obtain ⟨arr, fa⟩ := p1
        split at hev
        · cases hev
        · rename_i p2 h2
          obtain ⟨mem, fb⟩ := p2
          split at hev
          · cases hev
          · cases hev
            exact ((pop_ok h2).2).trans ((pop_ok h1).2)
    | STORE_MEMBER =>
      simp only [Opcode.eval, Except.map] at hev
      split at hev
      · cases hev
      · rename_i a ha
        obtain ⟨fc, mutc⟩ := a
        cases hev
        unfold STORE_MEMBER.eval at ha
        simp only [bind, Except.bind] at ha
        split at ha
        · cases ha
        · rename_i p1 h1
          obtain ⟨arr, fa⟩ := p1
          split at ha
          · cases ha
          · rename_i p2 h2
            obtain ⟨keyw, fb⟩ := p2
            split at ha
            · cases ha
            · rename_i p3 h3
              obtain ⟨vv, fd⟩ := p3
              split at ha
              · cases ha
              · rename_i mv hmv
                cases ha
                exact (((pop_ok h3).2).trans ((pop_ok h2).2)).trans ((pop_ok h1).2)
    | ASSIGN i n => exact absurd rfl (hne i n)
    | DISCARD_TOP =>
      simp only [Opcode.eval, DISCARD_TOP.eval, bind, Except.bind] at hev
      split at hev
      · cases hev
      · rename_i p hp
        obtain ⟨v, fa⟩ := p
        cases hev
        exact (pop_ok hp).2
    | DUP =>
      simp only [Opcode.eval, DUP.eval, bind, Except.bind] at hev
      split at hev
      · cases hev
      · cases hev
        rfl
    | JUMP t =>
      simp only [Opcode.eval] at hev
      cases hev
      rfl
    | JUMP_IF_FALSE t =>
      simp only [Opcode.eval] at hev
      cases hev
      rfl
    | RETURN =>
      simp only [Opcode.eval, Except.map] at hev
      split at hev
      · cases hev
      · rename_i a ha
        obtain ⟨w, fa⟩ := a
        cases hev
        unfold RETURN.eval at ha
        split at ha
        · exact (pop_ok ha).2
        · cases ha
          rfl
    | PRINT =>
      simp only [Opcode.eval, Except.map] at hev
      split at hev
      · cases hev
      · rename_i a ha
        obtain ⟨fa, s⟩ := a
        cases hev
        unfold PRINT.eval at ha
        simp only [bind, Except.bind] at ha
        split at ha
        · cases ha
        · rename_i p hp
          obtain ⟨item, fb⟩ := p
          cases ha
          exact (pop_ok hp).2
    | CALL =>
      simp only [Opcode.eval, CALL.eval, bind, Except.bind] at hev
      split at hev
      · cases hev
      · rename_i p1 h1
        obtain ⟨method, fa⟩ := p1
        split at hev
        · cases hev
        · rename_i p2 h2
          obtain ⟨params, fb⟩ := p2
          split at hev
          · split at hev
            · cases hev
            · rename_i res hres
              cases hev
              exact ((pop_ok h2).2).trans ((pop_ok h1).2)
          · cases hev
    | EQ =>
      simp only [Opcode.eval] at hev
      exact (baseDecision_ok hev).2
    | GT =>
      simp only [Opcode.eval] at hev
      exact (baseDecision_ok hev).2
    | GE =>
      simp only [Opcode.eval] at hev
      exact (baseDecision_ok hev).2
    | LT =>
      simp only [Opcode.eval] at hev
      exact (baseDecision_ok hev).2
    | LE =>
      simp only [Opcode.eval] at hev
      exact (baseDecision_ok hev).2
    | AND =>
      simp only [Opcode.eval] at hev
      exact (baseDecision_ok hev).2
    | OR =>
      simp only [Opcode.eval] at hev
      exact (baseDecision_ok hev).2
    | ADD =>
      simp only [Opcode.eval, ADD.eval] at hev
      exact (binaryArith_ok hev).2
    | SUB =>
      simp only [Opcode.eval, SUB.eval] at hev
      exact (binaryArith_ok hev).2
    | MUL =>
      simp only [Opcode.eval, MUL.eval] at hev
      exact (binaryArith_ok hev).2
    | DIV =>
      simp only [Opcode.eval, DIV.eval] at hev
      exact (binaryArith_ok hev).2
    | NOT =>
      simp only [Opcode.eval, NOT.eval, bind, Except.bind] at hev
      split at hev
      · cases hev
      · rename_i p hp
        obtain ⟨v, fa⟩ := p
        cases hev
        exact (pop_ok hp).2
    | INCR =>
      simp only [Opcode.eval, INCR.eval] at hev
      exact (unaryArith_ok hev).2
    | DECR =>
      simp only [Opcode.eval, DECR.eval] at hev
      exact (unaryArith_ok hev).2
    | MOD =>
      simp only [Opcode.eval] at hev
      cases hev
  refine ⟨fun A op f f2 hs hev => hvars A op f f2 ?_ hev,
          fun A index name v rest vars => rfl, hvars⟩
  intro index name heq
  rw [heq] at hs
  simp [stack_only] at hs

/-- Witness for C9: NOT executed on a concrete frame, the variable
environment unchanged. -/
theorem stack_only_leave_vars_unchanged_witness :
    (Frame.mk [W.Boolean false] []).vars = (Frame.mk [W.Boolean true] []).vars :=
  stack_only_leave_vars_unchanged.1 arithI .NOT ⟨[W.Boolean true], []⟩
    ⟨[W.Boolean false], []⟩ rfl rfl

/-- Numeric value of a decimal digit character. -/
def digitVal (c : Char) : Nat := c.toNat - 48

/-- Value of a most-significant-first decimal digit string. -/
def digitsVal (l : List Char) : Nat := l.foldl (fun a c => 10 * a + digitVal c) 0

theorem digitVal_digitChar {m : Nat} (h : m < 10) : digitVal (Nat.digitChar m) = m := by
  interval_cases m <;> decide

theorem digitsVal_append (l : List Char) (c : Char) :
    digitsVal (l ++ [c]) = 10 * digitsVal l + digitVal c := by
  simp [digitsVal, List.foldl_append]

theorem digitsVal_natDigits (n : Nat) : digitsVal (natDigits n) = n := by
  induction n using Nat.strong_induction_on with
  | _ n ih =>
    rw [natDigits]
    split
    · next h =>
      simp only [digitsVal, List.foldl_cons, List.foldl_nil, Nat.mul_zero, Nat.zero_add]
      exact digitVal_digitChar h
    · next h =>
      rw [digitsVal_append]
      rw [ih (n / 10) (Nat.div_lt_self (by omega) (by omega))]
      rw [digitVal_digitChar (Nat.mod_lt _ (by omega))]
      omega

theorem natStr_injective {a b : Nat} (h : natStr a = natStr b) : a = b := by
  have hd : natDigits a = natDigits b := congrArg String.data h
  have ha := digitsVal_natDigits a
  rw [hd, digitsVal_natDigits b] at ha
  exact ha.symm

theorem natStr_zero : natStr 0 = "0" := by
  simp [natStr, natDigits]
  rfl

theorem natStr_one : natStr 1 = "1" := by
  simp [natStr, natDigits]
  rfl

theorem natStr_two : natStr 2 = "2" := by
  simp [natStr, natDigits]
  rfl

theorem putEntries_fresh (entries : List (String × W)) (key : String) (v : W)
    (h : ∀ e ∈ entries, e.1 ≠ key) : putEntries entries key v = entries ++ [(key, v)] := by
  induction entries with
  | nil => rfl
  | cons e rest ih =>
    obtain ⟨k, w⟩ := e
    rw [putEntries]
    rw [if_neg]
    · simp only [List.cons_append, List.cons.injEq, true_and]
      exact ih (fun e he => h e (List.mem_cons_of_mem _ he))
    · have hk : k ≠ key := h (k, w) (List.mem_cons_self _ _)
      simp [hk]

theorem foldl_putEntries_enumFrom (l : List W) : ∀ (start : Nat) (acc : List (String × W)),
    (∀ e ∈ acc, ∃ j, j < start ∧ e.1 = natStr j) →
    (l.enumFrom start).foldl (fun acc p => putEntries acc (natStr p.1) p.2) acc =
      acc ++ (l.enumFrom start).map (fun p => (natStr p.1, p.2)) := by
  induction l with
  | nil => intro start acc h; simp
  | cons x xs ih =>
    intro start acc h
    rw [List.enumFrom_cons]
    simp only [List.foldl_cons, List.map_cons]
    rw [putEntries_fresh]
    · rw [ih (start + 1) (acc ++ [(natStr start, x)]) ?inv]
      · simp
      case inv =>
        intro e he
        rcases List.mem_append.mp he with h1 | h2
        · obtain ⟨j, hj, hk⟩ := h e h1
          exact ⟨j, by omega, hk⟩
        · simp only [List.mem_singleton] at h2
          subst h2
          exact ⟨start, by omega, rfl⟩
    · intro e he
      obtain ⟨j, hj, hk⟩ := h e he
      rw [hk]
      intro hEq
      have := natStr_injective hEq
      omega

/-- C4: executing LOAD_ARRAY(n) on a frame whose top n stack values
were pushed in order v0, v1, ..., v(n-1) pops exactly those n values and
pushes an Array keying the decimal rendering of i to vi — keys follow
original push position, not reversed pop order; concretely, LOAD_ARRAY(3)
applied to values [a, b, c] pushed in that order produces the Array
{"0": a, "1": b, "2": c}. -/
theorem load_array_keys_follow_push_order :
    (∀ (vs rest : List W) (vars : List Binding),
      LOAD_ARRAY.eval vs.length ⟨vs.reverse ++ rest, vars⟩ =
        .ok ⟨W.Array (vs.enum.map fun p => (natStr p.1, p.2)) :: rest, vars⟩)
    ∧ (∀ (a b c : W) (vars : List Binding),
      LOAD_ARRAY.eval 3 ⟨[c, b, a], vars⟩ =
        .ok ⟨[W.Array [("0", a), ("1", b), ("2", c)]], vars⟩) := by
  have H : ∀ (vs rest : List W) (vars : List Binding),
      LOAD_ARRAY.eval vs.length ⟨vs.reverse ++ rest, vars⟩ =
        .ok ⟨W.Array (vs.enum.map fun p => (natStr p.1, p.2)) :: rest, vars⟩ := by
    intro vs rest vars
    have Hpop : Frame.pop_n ⟨vs.reverse ++ rest, vars⟩ vs.length = .ok (vs, ⟨rest, vars⟩) := by
      unfold Frame.pop_n
      rw [if_pos]
      · have h1 : ((vs.reverse ++ rest).take vs.length).reverse = vs := by
          rw [← List.length_reverse vs, List.take_left, List.reverse_reverse]
        have h2 : (vs.reverse ++ rest).drop vs.length = rest := by
          rw [← List.length_reverse vs, List.drop_left]
        rw [h1, h2]
      · simp only [List.length_append, List.length_reverse]
        omega
    simp only [LOAD_ARRAY.eval, bind, Except.bind]
    rw [Hpop]
    dsimp only
    rw [List.enum_eq_enumFrom, foldl_putEntries_enumFrom vs 0 [] (by intro e he; cases he)]
    simp only [List.nil_append, Frame.push, ← List.enum_eq_enumFrom]
  refine ⟨H, fun a b c vars => ?_⟩
  rw [← natStr_zero, ← natStr_one, ← natStr_two]
  exact H [a, b, c] [] vars

theorem interpolateVars_eq_foldlM (f : Frame) (l : List StrVariable) : ∀ s : String,
    interpolateVars f l s =
      l.foldlM (fun s r => (resolveReference f r).map (fun repl => strReplace s r.search repl)) s := by
  induction l with
  | nil => intro s; rfl
  | cons r rest ih =>
    intro s
    rw [interpolateVars]
    cases hg : f.get_var r.identifier with
    | none => simp [resolveReference, hg, List.foldlM, bind, Except.bind, Except.map]
    | some base =>
      cases hn : navigateKeys f r.indexes base with
      | error e => simp [resolveReference, hg, hn, List.foldlM, bind, Except.bind, Except.map]
      | ok final => simp [resolveReference, hg, hn, List.foldlM, bind, Except.bind, Except.map, ih]

/-- A frame for the order-sensitivity example of C7: $a holds "Q" and
$b holds "x". -/
def demoFrameA : Frame :=
  ⟨[], [⟨0, "$a", .StringObject "Q" []⟩, ⟨1, "$b", .StringObject "x" []⟩]⟩

/-- A frame for the sigil-key example of C7: $i holds "1" and $arr is
an Array with key "1". -/
def demoFrameB : Frame :=
  ⟨[], [⟨0, "$i", .StringObject "1" []⟩, ⟨1, "$arr", .Array [("1", .StringObject "v" [])]⟩]⟩

/-- C7: LOAD_STRINGVAL interpolation resolves and substitutes the
embedded references strictly in recorded order, resolving '$'-sigil
index keys through the frame and applying the keys as successive get
navigations, then replacing every occurrence of each search pattern by
the final value's display string — the code coincides with the spec's
per-reference protocol of section 4.3.  Concretely: with the references
for "y" and "x" recorded in that order (the reverse of template scan
order), "xy" resolves to "QQ", while scan-order processing would give
"Qx"; and "A $arr[$i]" resolves $i to "1" first and navigates $arr by
that key. -/
theorem load_stringval_interpolation :
    (∀ (ws : WStr) (f : Frame),
      LOAD_STRINGVAL.eval ws f =
        (interpolate_spec f ws).map (fun s => f.push (.StringObject s [])))
    ∧ LOAD_STRINGVAL.eval ⟨"xy", [⟨"y", "$b", []⟩, ⟨"x", "$a", []⟩]⟩ demoFrameA =
        .ok (demoFrameA.push (.StringObject "QQ" []))
    ∧ interpolateVars demoFrameA [⟨"x", "$a", []⟩, ⟨"y", "$b", []⟩] "xy" = .ok "Qx"
    ∧ ("QQ" : String) ≠ "Qx"
    ∧ LOAD_STRINGVAL.eval ⟨"A $arr[$i]", [⟨"$arr[$i]", "$arr", ["$i"]⟩]⟩ demoFrameB =
        .ok (demoFrameB.push (.StringObject "A v" [])) := by
  refine ⟨fun ws f => ?_, rfl, rfl, by decide, rfl⟩
  simp only [LOAD_STRINGVAL.eval, interpolate_spec, bind, Except.bind]
  rw [← interpolateVars_eq_foldlM]
  cases h : interpolateVars f ws.refs ws.value <;> simp [Except.map]

end PyHP
